import Mathlib

/-!
Verification development for a multi-trace STARK engine (prover, verifier,
constraint folders, proof structure) written in Rust.  The definitions below
are a shallow embedding of the source files `folder.rs`, `proof.rs`,
`prover.rs` and `verifier.rs`.  Machine behaviour that can abort
(slice indexing, `assert_eq`, `unwrap`, `expect`) is modelled with `Option`:
`none` means the original code panics.  The base field and the extension
field are modelled by a single commutative ring `F`; this is the trivial
extension instance, which the generic Rust code permits.
-/

set_option autoImplicit false
set_option maxRecDepth 100000

namespace MTStark

/-- A transcript interaction event: observing a commitment, observing a slice
of field values, or sampling a challenge.  Sampled values are deterministic
functions of the transcript state, so recording the sample positions together
with the observed contents captures the whole interaction. -/
inductive TEvent (F C : Type) where
  | observeCommit (c : C)
  | observeVals (vs : List F)
  | sampleEv
  deriving DecidableEq, Repr

/-- Verification error type, from `verifier.rs` (`VerificationError`). -/
inductive VerificationError where
  | PcsVerificationFailed
  | ConstraintVerificationFailed
  | InvalidProof (reason : String)
  deriving DecidableEq, Repr

instance : DecidableEq (Except VerificationError Unit) := fun x y =>
  match x, y with
  | .ok u, .ok v => decidable_of_iff (u = v) (by simp)
  | .ok _, .error _ => isFalse (by simp)
  | .error _, .ok _ => isFalse (by simp)
  | .error a, .error b => decidable_of_iff (a = b) (by simp)

/-- Row-major matrix over `F`, from `p3_matrix::dense::RowMajorMatrix` as the
source uses it: a flat value buffer plus a width. -/
structure MatrixRM (F : Type) where
  values : List F
  width : Nat
  deriving DecidableEq, Repr

namespace MatrixRM

/-- Height as the source computes it: `values.len() / width`. -/
def height {F : Type} (m : MatrixRM F) : Nat := m.values.length / m.width

/-- Entry access `get(r, c) = values[r * width + c]`; `none` models the Rust index panic. -/
def entry {F : Type} (m : MatrixRM F) (r c : Nat) : Option F :=
  m.values.get? (r * m.width + c)

end MatrixRM

/-- Lagrange-style selector bundle (`is_first_row`, `is_last_row`,
`is_transition`, inverse vanishing), polymorphic so it serves both the
per-point form (`T = F`) and the on-coset list form (`T = List F`). -/
structure LagrangeSelectors (T : Type) where
  is_first_row : T
  is_last_row : T
  is_transition : T
  inv_vanishing : T

/-- Deep embedding of the constraint expressions an AIR `eval` can assert.
The Rust `eval` is one generic function run against either folder; by
parametricity it can only read the two-row main/aux windows and the
selectors, and combine them with ring operations, so a computation is
faithfully represented by its ordered list of asserted expressions. -/
inductive AExpr (F : Type) where
  | const (c : F)
  | mainLocal (i : Nat)
  | mainNext (i : Nat)
  | auxLocal (i : Nat)
  | auxNext (i : Nat)
  | isFirstRow
  | isLastRow
  | isTransition
  | add (a b : AExpr F)
  | sub (a b : AExpr F)
  | mul (a b : AExpr F)

/-- Evaluation environment for one constraint-evaluation pass: the opened or
windowed row values plus the selector scalars. -/
structure Env (F : Type) where
  main_local : List F
  main_next : List F
  aux_local : List F
  aux_next : List F
  is_first_row : F
  is_last_row : F
  is_transition : F

/-- Evaluate a constraint expression; `none` models the Rust slice-index
panic in `VerifierView::get_local` / `row_slice` when a column index is out
of bounds of the supplied row values. -/
def evalA {F : Type} [CommRing F] : AExpr F → Env F → Option F
  | .const c, _ => some c
  | .mainLocal i, env => env.main_local.get? i
  | .mainNext i, env => env.main_next.get? i
  | .auxLocal i, env => env.aux_local.get? i
  | .auxNext i, env => env.aux_next.get? i
  | .isFirstRow, env => some env.is_first_row
  | .isLastRow, env => some env.is_last_row
  | .isTransition, env => some env.is_transition
  | .add a b, env =>
    match evalA a env, evalA b env with
    | some x, some y => some (x + y)
    | _, _ => none
  | .sub a b, env =>
    match evalA a env, evalA b env with
    | some x, some y => some (x - y)
    | _, _ => none
  | .mul a b, env =>
    match evalA a env, evalA b env with
    | some x, some y => some (x * y)
    | _, _ => none

/-- Sequence a list of expression evaluations, propagating a panic. -/
def evalAll {F : Type} [CommRing F] (cs : List (AExpr F)) (env : Env F) :
    Option (List F) :=
  match cs with
  | [] => some []
  | e :: rest =>
    match evalA e env, evalAll rest env with
    | some v, some vs => some (v :: vs)
    | _, _ => none

/-- Modelled from the spec: the `MultiTraceAir`/`AuxTraceBuilder` trait
declarations live in the crate root, which is not among the provided source
files; per spec section 4.2 a computation declares `width`, `aux_width`,
`num_challenges`, `build_aux_trace` and a builder-polymorphic `eval`, here
represented by the ordered assertion list `constraints`. -/
structure AirModel (F : Type) where
  width : Nat
  auxWidth : Nat
  numChallenges : Nat
  buildAuxTrace : MatrixRM F → List F → MatrixRM F
  constraints : List (AExpr F)

/-- Fiat-Shamir challenger interface from `config.rs` (`StarkConfig`): a
state type with observe and sample operations. -/
structure ChallengerModel (F C St : Type) where
  init : St
  observeCommit : St → C → St
  observeSlice : St → List F → St
  sample : St → F × St

/-- Challenger state paired with the transcript event log. -/
def ChSt (St F C : Type) : Type := St × List (TEvent F C)

/-- Observe a commitment and log the event. -/
def obsCommit {F C St : Type} (ch : ChallengerModel F C St) (s : ChSt St F C)
    (c : C) : ChSt St F C :=
  (ch.observeCommit s.1 c, s.2 ++ [TEvent.observeCommit c])

/-- Observe a slice of field values and log the event. -/
def obsSlice {F C St : Type} (ch : ChallengerModel F C St) (s : ChSt St F C)
    (vs : List F) : ChSt St F C :=
  (ch.observeSlice s.1 vs, s.2 ++ [TEvent.observeVals vs])

/-- Sample a challenge and log the event. -/
def sampleE {F C St : Type} (ch : ChallengerModel F C St) (s : ChSt St F C) :
    F × ChSt St F C :=
  ((ch.sample s.1).1, ((ch.sample s.1).2, s.2 ++ [TEvent.sampleEv]))

/-- Sample `n` challenges in order. -/
def sampleN {F C St : Type} (ch : ChallengerModel F C St) (s : ChSt St F C) :
    Nat → List F × ChSt St F C
  | 0 => ([], s)
  | Nat.succ m =>
    let p := sampleE ch s
    let q := sampleN ch p.2 m
    (p.1 :: q.1, q.2)

/-- Observe a list of commitments in order (the quotient-commitment loop in
both `prover.rs` and `verifier.rs`). -/
def obsCommitList {F C St : Type} (ch : ChallengerModel F C St) :
    ChSt St F C → List C → ChSt St F C
  | s, [] => s
  | s, c :: cs => obsCommitList ch (obsCommit ch s c) cs

/-- The prover folder accumulation, from `ProverFolder::assert_zero` /
`assert_zero_ext` in `folder.rs`: for assertion `constraint_index = i` it
adds `alpha_powers[i] * x` to the accumulator; `none` models the index panic
when `constraint_index` reaches the table length. -/
def proverFolderGo {F : Type} [CommRing F] (alpha_powers : List F) :
    F → Nat → List F → Option F
  | acc, _, [] => some acc
  | acc, idx, c :: rest =>
    match alpha_powers.get? idx with
    | none => none
    | some a => proverFolderGo alpha_powers (acc + a * c) (idx + 1) rest

/-- Run the prover folder over the asserted constraint values starting from
accumulator `ZERO`, `constraint_index = 0`. -/
def proverFolderRun {F : Type} [CommRing F] (alpha_powers : List F)
    (cs : List F) : Option F :=
  proverFolderGo alpha_powers 0 0 cs

/-- The verifier folder accumulation, from `VerifierFolder::assert_zero` /
`assert_zero_ext` in `folder.rs`: forward Horner,
`accumulator = accumulator * alpha + x`. -/
def verifierFolderRun {F : Type} [CommRing F] (alpha : F) (cs : List F) : F :=
  cs.foldl (fun acc c => acc * alpha + c) 0

/-- Alpha powers `alpha.powers().take(n)`: the list `[1, alpha, ..., alpha^(n-1)]`. -/
def alphaPowersList {F : Type} [CommRing F] (alpha : F) (n : Nat) : List F :=
  (List.range n).map (fun i => alpha ^ i)

/-- The quotient reconstruction loop of `verifier.rs` (lines 121-130):
starting from `power = ONE`, adds `chunk[0] * power` and multiplies `power`
by the base `n`; `none` models the `chunk[0]` panic on an empty chunk. -/
def reconstructQuotientGo {F : Type} [CommRing F] (n : F) :
    F → F → List (List F) → Option F
  | acc, _, [] => some acc
  | acc, power, chunk :: rest =>
    match chunk.get? 0 with
    | none => none
    | some c0 => reconstructQuotientGo n (acc + c0 * power) (power * n) rest

/-- Quotient reconstruction exactly as `verifier.rs` performs it: the power
base is `n = Challenge::from_canonical_usize(height)`, the field element
equal to the trace height. -/
def reconstructQuotient {F : Type} [CommRing F] (n : F)
    (chunks : List (List F)) : Option F :=
  reconstructQuotientGo n 0 1 chunks

/-- Modelled from the spec: the claimed reconstruction combines the opened
chunk values with successive powers of the evaluation point `zeta` raised to
the per-chunk domain size (spec sections 4.5 step 8 and 9). -/
def reconstructQuotientSpec {F : Type} [CommRing F] (zeta : F)
    (chunkSize : Nat) (chunks : List (List F)) : Option F :=
  reconstructQuotientGo (zeta ^ chunkSize) 0 1 chunks

/-- Polynomial commitment scheme and polynomial-space interface, from the
`Pcs` / `PolynomialSpace` bounds the source uses (`p3_commit`), plus the
`get_ldes` accessor `prover.rs` calls on prover data.  `D` is the domain
type, `C` the commitment type, `PD` the prover (opening) data, `OP` the
opening proof, `St` the challenger state (because `open` takes the
challenger).  `openAll` returns the opened values tree, the opening proof,
the updated challenger state and the transcript events it performed. -/
structure PcsModel (F D C PD OP St : Type) where
  naturalDomainForDegree : Nat → D
  createDisjointDomain : D → Nat → D
  domainSize : D → Nat
  commit : List (D × MatrixRM F) → C × PD
  getLdes : PD → List (MatrixRM F)
  getEvaluationsOnDomain : PD → Nat → D → MatrixRM F
  splitEvals : D → Nat → MatrixRM F → List (MatrixRM F)
  splitDomains : D → Nat → List D
  selectorsOnCoset : D → D → LagrangeSelectors (List F)
  selectorsAtPoint : D → F → LagrangeSelectors F
  nextPoint : D → F → Option F
  zpAtPoint : D → F → F
  openAll : List (PD × List (List F)) → St →
    List (List (List (List F))) × OP × St × List (TEvent F C)

/-- The proof bundle, from `proof.rs` (`Proof`).  `quotient_chunks` is a list
of per-chunk opened-value vectors, matching how `prover.rs` fills it
(`vals[0][0].clone()`, a `Vec` of column values) and how `verifier.rs` reads
it (`chunk[0]`). -/
structure ProofModel (F C OP : Type) where
  main_commit : C
  aux_commit : Option C
  quotient_commits : List C
  main_local : List F
  main_next : List F
  aux_local : List F
  aux_next : List F
  quotient_chunks : List (List F)
  opening_proof : OP
  log_degree : Nat
  deriving DecidableEq

/-- Fuel-indexed core of `log2_strict_usize`: the exact base-2 logarithm, `none` (panic) when the
argument is zero or not a power of two.  Structural recursion on a fuel
argument equal to the input. -/
def log2StrictAux : Nat → Nat → Option Nat
  | _, 0 => none
  | _, 1 => some 0
  | 0, _ => none
  | Nat.succ fuel, n =>
    if n % 2 = 1 then none
    else (log2StrictAux fuel (n / 2)).map (fun k => k + 1)

/-- Strict base-2 logarithm, `log2_strict_usize(n)`. -/
def log2Strict (n : Nat) : Option Nat := log2StrictAux n n

/-- The fixed constraint-degree heuristic of `prover.rs` line 132
(`constraint_degree = 2`) and the derived `quotient_degree = 1 << 2`. -/
def constraint_degree : Nat := 2

/-- Derived `quotient_degree = 1 << constraint_degree = 4`. -/
def quotient_degree : Nat := 1 <<< constraint_degree

/-- Sequence a list of optional values, propagating a panic. -/
def optList {F : Type} : List (Option F) → Option (List F)
  | [] => some []
  | o :: rest =>
    match o, optList rest with
    | some v, some vs => some (v :: vs)
    | _, _ => none

/-- Window row `(0..width).map(|col| m.get(row, col)).collect()`: one row of a matrix
read column by column, as `compute_quotient_values` builds its windows. -/
def collectRow {F : Type} (m : MatrixRM F) (row width : Nat) :
    Option (List F) :=
  optList ((List.range width).map (fun col => m.entry row col))

/-- The per-point body of `compute_quotient_values` (`prover.rs` lines
266-318): fetch the selectors and the two-row window at point `i`, run the
AIR through the prover folder, and divide by the vanishing polynomial via
`inv_vanishing`. -/
def quotientValueAt {F : Type} [CommRing F]
    (air : AirModel F) (selectors : LagrangeSelectors (List F))
    (main_on_quotient : MatrixRM F) (aux_on_quotient : Option (MatrixRM F))
    (alpha_powers : List F) (quotient_size : Nat) (i : Nat) : Option F :=
  match selectors.is_first_row.get? i, selectors.is_last_row.get? i,
      selectors.is_transition.get? i, selectors.inv_vanishing.get? i with
  | some is_first_row, some is_last_row, some is_transition,
      some inv_vanishing =>
    let width_main := main_on_quotient.width
    let width_aux := match aux_on_quotient with
      | some m => m.width
      | none => 0
    let main_next_idx := (i + 1) % quotient_size
    match collectRow main_on_quotient i width_main,
        collectRow main_on_quotient main_next_idx width_main with
    | some main_local, some main_next =>
      let auxRows : Option (List F × List F) :=
        match aux_on_quotient with
        | some auxm =>
          match collectRow auxm i width_aux,
              collectRow auxm main_next_idx width_aux with
          | some al, some an => some (al, an)
          | _, _ => none
        | none => some ([], [])
      match auxRows with
      | none => none
      | some ar =>
        let env : Env F :=
          ⟨main_local, main_next, ar.1, ar.2,
            is_first_row, is_last_row, is_transition⟩
        match evalAll air.constraints env with
        | none => none
        | some cs =>
          match proverFolderRun alpha_powers cs with
          | none => none
          | some acc => some (acc * inv_vanishing)
    | _, _ => none
  | _, _, _, _ => none

/-- Quotient evaluation `compute_quotient_values` (`prover.rs` lines 233-321): the 100-entry
reversed alpha-power table followed by the per-point loop over the quotient
domain. -/
def compute_quotient_values {F D C PD OP St : Type} [CommRing F]
    (pcs : PcsModel F D C PD OP St) (air : AirModel F)
    (trace_domain quotient_domain : D) (main_on_quotient : MatrixRM F)
    (aux_on_quotient : Option (MatrixRM F)) (alpha : F)
    (public_values : List F) : Option (List F) :=
  let quotient_size := pcs.domainSize quotient_domain
  let selectors := pcs.selectorsOnCoset trace_domain quotient_domain
  let max_constraints := 100
  let alpha_powers := (alphaPowersList alpha max_constraints).reverse
  optList ((List.range quotient_size).map
    (fun i => quotientValueAt air selectors main_on_quotient aux_on_quotient
      alpha_powers quotient_size i))

/-- Phase 2 of `prove` (`prover.rs` lines 73-120): when `aux_width() > 0`,
sample `num_challenges()` values, build the auxiliary trace from the first
committed LDE and the challenges, abort on a width or height mismatch,
commit it and observe the commitment; otherwise do nothing. -/
def proveAuxPhase {F D C PD OP St : Type}
    (pcs : PcsModel F D C PD OP St) (ch : ChallengerModel F C St)
    (air : AirModel F) (trace_domain : D) (height : Nat) (main_data : PD)
    (s : ChSt St F C) : Option (Option C × Option PD × ChSt St F C) :=
  if air.auxWidth > 0 then
    let p := sampleN ch s air.numChallenges
    match (pcs.getLdes main_data).get? 0 with
    | none => none
    | some mainLde =>
      let aux_trace := air.buildAuxTrace mainLde p.1
      if aux_trace.width ≠ air.auxWidth then none
      else if aux_trace.height ≠ height then none
      else
        let ca := pcs.commit [(trace_domain, aux_trace)]
        some (some ca.1, some ca.2, obsCommit ch p.2 ca.1)
  else some (none, none, s)

/-- Extraction of one quotient-chunk opening per remaining round
(`prover.rs` lines 213-215, `values_iter.map(|vals| vals[0][0].clone())`);
`none` models the index panics. -/
def chunkVals {F : Type} :
    List (List (List (List F))) → Option (List (List F))
  | [] => some []
  | vals :: rest =>
    match vals.get? 0 with
    | none => none
    | some v0 =>
      match v0.get? 0, chunkVals rest with
      | some c, some cs => some (c :: cs)
      | _, _ => none

/-- Extraction of the opened values (`prover.rs` lines 196-215): the main
round yields local and next values of matrix 0, the optional aux round
likewise, and every remaining round contributes one quotient chunk. -/
def extractOpenings {F : Type} (aux_present : Bool)
    (opened_values : List (List (List (List F)))) :
    Option (List F × List F × List F × List F × List (List F)) :=
  match opened_values.get? 0 with
  | none => none
  | some main_openings =>
    match main_openings.get? 0 with
    | none => none
    | some mo =>
      match mo.get? 0, mo.get? 1 with
      | some main_local, some main_next =>
        let rest := opened_values.drop 1
        if aux_present then
          match rest.get? 0 with
          | none => none
          | some aux_openings =>
            match aux_openings.get? 0 with
            | none => none
            | some ao =>
              match ao.get? 0, ao.get? 1 with
              | some aux_local, some aux_next =>
                match chunkVals (rest.drop 1) with
                | none => none
                | some qcs =>
                  some (main_local, main_next, aux_local, aux_next, qcs)
              | _, _ => none
        else
          match chunkVals rest with
          | none => none
          | some qcs => some (main_local, main_next, [], [], qcs)
      | _, _ => none

/-- Phases 3 and 4 of `prove` (`prover.rs` lines 122-228), entered with the
state after the auxiliary phase: sample `alpha`, compute and commit the
quotient chunks, observe the chunk commitments, sample `zeta`, batch-open
everything and assemble the proof. -/
def proveQuotientAndOpen {F D C PD OP St : Type} [CommRing F]
    (pcs : PcsModel F D C PD OP St) (ch : ChallengerModel F C St)
    (air : AirModel F) (trace_domain : D) (height log_degree : Nat)
    (main_commit : C) (main_data : PD) (aux_commit : Option C)
    (aux_data : Option PD) (public_values : List F) (s : ChSt St F C) :
    Option (ProofModel F C OP × List (TEvent F C)) :=
  let ap := sampleE ch s
  let alpha := ap.1
  let quotient_domain :=
    pcs.createDisjointDomain trace_domain (height * quotient_degree)
  let main_on_quotient :=
    pcs.getEvaluationsOnDomain main_data 0 quotient_domain
  let aux_on_quotient := aux_data.map
    (fun d2 => pcs.getEvaluationsOnDomain d2 0 quotient_domain)
  match compute_quotient_values pcs air trace_domain quotient_domain
      main_on_quotient aux_on_quotient alpha public_values with
  | none => none
  | some quotient_values =>
    let quotient_flat : MatrixRM F := ⟨quotient_values, 1⟩
    let quotient_chunks :=
      pcs.splitEvals quotient_domain quotient_degree quotient_flat
    let quotient_chunk_domains :=
      pcs.splitDomains quotient_domain quotient_degree
    let committed := (quotient_chunks.zip quotient_chunk_domains).map
      (fun p => pcs.commit [(p.2, p.1)])
    let quotient_commit_vec := committed.map (fun p => p.1)
    let quotient_data_vec := committed.map (fun p => p.2)
    let s7 := obsCommitList ch ap.2 quotient_commit_vec
    let zp := sampleE ch s7
    let zeta := zp.1
    match pcs.nextPoint trace_domain zeta with
    | none => none
    | some zeta_next =>
      let opening_points : List (PD × List (List F)) :=
        [(main_data, [[zeta, zeta_next]])]
          ++ (match aux_data with
              | some ad => [(ad, [[zeta, zeta_next]])]
              | none => [])
          ++ quotient_data_vec.map (fun d2 => (d2, [[zeta]]))
      let opened := pcs.openAll opening_points zp.2.1
      let evs := zp.2.2 ++ opened.2.2.2
      match extractOpenings aux_data.isSome opened.1 with
      | none => none
      | some ex =>
        some ({ main_commit := main_commit
                aux_commit := aux_commit
                quotient_commits := quotient_commit_vec
                main_local := ex.1
                main_next := ex.2.1
                aux_local := ex.2.2.1
                aux_next := ex.2.2.2.1
                quotient_chunks := ex.2.2.2.2
                opening_proof := opened.2.1
                log_degree := log_degree }, evs)

/-- Prover entry point `prove` (`prover.rs` lines 33-229): width assertion, main-trace commit
and observation, auxiliary phase, quotient phase, opening phase.  `none`
models a panic anywhere along the way. -/
def prove {F D C PD OP St : Type} [CommRing F]
    (pcs : PcsModel F D C PD OP St) (ch : ChallengerModel F C St)
    (air : AirModel F) (main_trace : MatrixRM F) (public_values : List F) :
    Option (ProofModel F C OP × List (TEvent F C)) :=
  if main_trace.width ≠ air.width then none
  else
    let height := main_trace.height
    match log2Strict height with
    | none => none
    | some log_degree =>
      let trace_domain := pcs.naturalDomainForDegree height
      let cm := pcs.commit [(trace_domain, main_trace)]
      let s2 := obsSlice ch (obsCommit ch (ch.init, []) cm.1) public_values
      match proveAuxPhase pcs ch air trace_domain height cm.2 s2 with
      | none => none
      | some (aux_commit, aux_data, s5) =>
        proveQuotientAndOpen pcs ch air trace_domain height log_degree
          cm.1 cm.2 aux_commit aux_data public_values s5

/-- The tail of `verify` after the structural checks (`verifier.rs` lines
58-142): transcript replay, selectors at `zeta`, constraint folding over the
opened values, quotient reconstruction with base `height`, and the final
identity check. -/
def verifyChecked {F D C PD OP St : Type} [CommRing F] [DecidableEq F]
    (pcs : PcsModel F D C PD OP St) (ch : ChallengerModel F C St)
    (air : AirModel F) (proof : ProofModel F C OP)
    (public_values : List F) :
    Option (Except VerificationError Unit × List (TEvent F C)) :=
  let height := 1 <<< proof.log_degree
  let trace_domain := pcs.naturalDomainForDegree height
  let s2 := obsSlice ch (obsCommit ch (ch.init, []) proof.main_commit)
    public_values
  let s3 := match proof.aux_commit with
    | some ac => obsCommit ch (sampleN ch s2 air.numChallenges).2 ac
    | none => s2
  let s4 := obsCommitList ch s3 proof.quotient_commits
  let zp := sampleE ch s4
  let zeta := zp.1
  match pcs.nextPoint trace_domain zeta with
  | none => none
  | some _zeta_next =>
    let selectors := pcs.selectorsAtPoint trace_domain zeta
    let ap := sampleE ch zp.2
    let alpha := ap.1
    let env : Env F :=
      ⟨proof.main_local, proof.main_next, proof.aux_local, proof.aux_next,
        selectors.is_first_row, selectors.is_last_row,
        selectors.is_transition⟩
    match evalAll air.constraints env with
    | none => none
    | some cs =>
      let constraints_at_zeta := verifierFolderRun alpha cs
      let n : F := (height : F)
      match reconstructQuotient n proof.quotient_chunks with
      | none => none
      | some quotient_at_zeta =>
        let z_h_at_zeta := pcs.zpAtPoint trace_domain zeta
        let expected := z_h_at_zeta * quotient_at_zeta
        if constraints_at_zeta ≠ expected then
          some (Except.error VerificationError.ConstraintVerificationFailed,
            ap.2.2)
        else some (Except.ok (), ap.2.2)

/-- Verifier entry point `verify` (`verifier.rs` lines 34-143): the two structural aux-presence
checks return `InvalidProof` with no transcript interaction and no
arithmetic; otherwise the checked tail runs. -/
def verify {F D C PD OP St : Type} [CommRing F] [DecidableEq F]
    (pcs : PcsModel F D C PD OP St) (ch : ChallengerModel F C St)
    (air : AirModel F) (proof : ProofModel F C OP)
    (public_values : List F) :
    Option (Except VerificationError Unit × List (TEvent F C)) :=
  if air.auxWidth > 0 ∧ proof.aux_commit.isNone then
    some (Except.error (VerificationError.InvalidProof
      ("AIR requires auxiliary trace but proof has none")), [])
  else if air.auxWidth = 0 ∧ proof.aux_commit.isSome then
    some (Except.error (VerificationError.InvalidProof
      ("AIR has no auxiliary trace but proof includes one")), [])
  else verifyChecked pcs ch air proof public_values

/-- The challenger state (and event log) after the main commitment and the
public values are observed: the state from which the auxiliary-phase
challenges are sampled (`prover.rs` lines 69-79). -/
def proveMainState {F D C PD OP St : Type} (pcs : PcsModel F D C PD OP St)
    (ch : ChallengerModel F C St) (mt : MatrixRM F) (pv : List F) :
    ChSt St F C :=
  obsSlice ch (obsCommit ch (ch.init, [])
    (pcs.commit [(pcs.naturalDomainForDegree mt.height, mt)]).1) pv

/-- The `num_challenges()` auxiliary challenges `prove` samples, in
declaration order. -/
def proveChallenges {F D C PD OP St : Type} (pcs : PcsModel F D C PD OP St)
    (ch : ChallengerModel F C St) (air : AirModel F) (mt : MatrixRM F)
    (pv : List F) : List F :=
  (sampleN ch (proveMainState pcs ch mt pv) air.numChallenges).1

/-- The auxiliary trace `prove` computes: `build_aux_trace` applied to the
main trace and the sampled challenges. -/
def proveAuxMatrix {F D C PD OP St : Type} (pcs : PcsModel F D C PD OP St)
    (ch : ChallengerModel F C St) (air : AirModel F) (mt : MatrixRM F)
    (pv : List F) : MatrixRM F :=
  air.buildAuxTrace mt (proveChallenges pcs ch air mt pv)

/-! ## A concrete conforming instantiation

The Rust engine is generic over the config; the instance below supplies the
outside collaborators on the field `ZMod 17`: two-adic multiplicative
coset domains (shift times the canonical subgroup generator powers, the
disjoint domain shifted by the field generator 3, matching
`TwoAdicMultiplicativeCoset`), an honest transparent commitment scheme whose
commitment is the committed data itself and whose openings are true
evaluations of the column interpolants (Lagrange), and a deterministic
counter challenger.  Inverses use the Fermat power `x ^ 15` so everything
kernel-reduces. -/

/-- The concrete field. -/
abbrev FC : Type := ZMod 17

/-- Field inverse on `ZMod 17` by Fermat exponentiation. -/
def zinv (x : FC) : FC := x ^ 15

/-- Two-adic multiplicative coset domain: shift and size (size divides 16). -/
structure DomainC where
  shift : FC
  size : Nat
  deriving DecidableEq

/-- Canonical generator of the order-`n` subgroup of `ZMod 17`, `n ∣ 16`:
powers of the field generator 3. -/
def gSub (n : Nat) : FC := (3 : FC) ^ (16 / n)

/-- The points of a domain in natural order. -/
def domPoints (d : DomainC) : List FC :=
  (List.range d.size).map (fun i => d.shift * gSub d.size ^ i)

/-- Column `c` of a matrix as a list. -/
def colOf (m : MatrixRM FC) (c : Nat) : List FC :=
  (List.range m.height).map (fun r => (m.entry r c).getD 0)

/-- Evaluate at `x` the interpolant of the values `vals` over the points
`pts` (Lagrange form, denominators inverted by `zinv`). -/
def lagrangeEval (pts vals : List FC) (x : FC) : FC :=
  (List.range pts.length).foldl
    (fun acc i =>
      let pti := pts.getD i 0
      let vi := vals.getD i 0
      let li := (List.range pts.length).foldl
        (fun num j =>
          if j = i then num
          else num * ((x - pts.getD j 0) * zinv (pti - pts.getD j 0))) 1
      acc + vi * li) 0

/-- Open matrix `m` (committed over domain `dm`) at point `x`: the vector of
column-interpolant values. -/
def openMatrixAt (dm : DomainC) (m : MatrixRM FC) (x : FC) : List FC :=
  (List.range m.width).map (fun c => lagrangeEval (domPoints dm) (colOf m c) x)

/-- Commitment type of the concrete scheme: the committed matrices. -/
abbrev CC : Type := List (MatrixRM FC)

/-- Prover data of the concrete scheme: the committed (domain, matrix) pairs. -/
abbrev PDC : Type := List (DomainC × MatrixRM FC)

/-- Selector values at one (unshifted) point, Plonky3 form: with
`xs = x / shift`, `z_h = xs ^ n - 1`, first row `z_h / (xs - 1)`, last row
`z_h / (xs - g⁻¹)`, transition `xs - g⁻¹`, inverse vanishing `z_h⁻¹`. -/
def selAt (t : DomainC) (x : FC) : LagrangeSelectors FC :=
  let xs := x * zinv t.shift
  let gInv := zinv (gSub t.size)
  let zh := xs ^ t.size - 1
  ⟨zh * zinv (xs - 1), zh * zinv (xs - gInv), xs - gInv, zinv zh⟩

/-- Rows of `m` whose index is congruent to `j` modulo `k`, concatenated:
the strided chunk split of coset evaluations. -/
def stridedChunk (m : MatrixRM FC) (k j : Nat) : MatrixRM FC :=
  ⟨(((List.range m.height).filter (fun r => r % k = j)).map
      (fun r => (List.range m.width).map
        (fun c => (m.entry r c).getD 0))).flatten, m.width⟩

/-- The concrete honest commitment scheme. -/
def pcsC : PcsModel FC DomainC CC PDC Unit Nat where
  naturalDomainForDegree := fun n => ⟨1, n⟩
  createDisjointDomain := fun d s => ⟨3 * d.shift, s⟩
  domainSize := fun d => d.size
  commit := fun l => (l.map (fun p => p.2), l)
  getLdes := fun pd => pd.map (fun p => p.2)
  getEvaluationsOnDomain := fun pd i dom =>
    match pd.get? i with
    | some dm =>
      ⟨((domPoints dom).map (fun x => openMatrixAt dm.1 dm.2 x)).flatten,
        dm.2.width⟩
    | none => ⟨[], 0⟩
  splitEvals := fun _ k m => (List.range k).map (fun j => stridedChunk m k j)
  splitDomains := fun d k =>
    (List.range k).map (fun i => ⟨d.shift * gSub d.size ^ i, d.size / k⟩)
  selectorsOnCoset := fun t q =>
    let sels := (domPoints q).map (fun x => selAt t x)
    ⟨sels.map (fun s => s.is_first_row), sels.map (fun s => s.is_last_row),
      sels.map (fun s => s.is_transition),
      sels.map (fun s => s.inv_vanishing)⟩
  selectorsAtPoint := fun t x => selAt t x
  nextPoint := fun d x => some (x * gSub d.size)
  zpAtPoint := fun d x => (x * zinv d.shift) ^ d.size - 1
  openAll := fun rounds st =>
    ((rounds.map (fun pr =>
        (List.range pr.1.length).map (fun mi =>
          match pr.1.get? mi, pr.2.get? mi with
          | some dm, some pts => pts.map (fun x => openMatrixAt dm.1 dm.2 x)
          | _, _ => []))),
      (), st, [])

/-- Deterministic counter challenger: observes are absorbed silently and the
`k`-th sample is the field element `k + 2`. -/
def chC : ChallengerModel FC CC Nat where
  init := 0
  observeCommit := fun s _ => s
  observeSlice := fun s _ => s
  sample := fun s => (((s + 2 : Nat) : FC), s + 1)

/-- A concrete computation with no auxiliary trace: one main column, the
boundary constraint `is_first_row * (a - 1)` and the transition constraint
`is_transition * (a_next - (a + a))`. -/
def airC : AirModel FC where
  width := 1
  auxWidth := 0
  numChallenges := 0
  buildAuxTrace := fun _ _ => ⟨[], 0⟩
  constraints :=
    [ AExpr.mul AExpr.isFirstRow (AExpr.sub (AExpr.mainLocal 0)
        (AExpr.const 1)),
      AExpr.mul AExpr.isTransition (AExpr.sub (AExpr.mainNext 0)
        (AExpr.add (AExpr.mainLocal 0) (AExpr.mainLocal 0))) ]

/-- The honest height-2 trace `(1, 2)` for `airC`: first row 1, each
transition doubles, so every constraint of `airC` vanishes on it. -/
def traceC : MatrixRM FC := ⟨[1, 2], 1⟩

/-- A concrete computation with a one-column auxiliary trace: one challenge
is sampled and the auxiliary column holds that challenge in every row. -/
def airAux1 : AirModel FC where
  width := 1
  auxWidth := 1
  numChallenges := 1
  buildAuxTrace := fun m chs =>
    ⟨(List.range m.height).map (fun _ => chs.getD 0 0), 1⟩
  constraints := airC.constraints

/-- A concrete computation that declares a two-column auxiliary trace but
whose builder returns a single column: the auxiliary width validation in
`prove` must abort. -/
def airAuxBad : AirModel FC where
  width := 1
  auxWidth := 2
  numChallenges := 1
  buildAuxTrace := fun m chs =>
    ⟨(List.range m.height).map (fun _ => chs.getD 0 0), 1⟩
  constraints := airC.constraints

/-- A concrete proof object with no auxiliary commitment, used as a witness
input. -/
def proofTrivial : ProofModel FC CC Unit where
  main_commit := [⟨[1, 2], 1⟩]
  aux_commit := none
  quotient_commits := []
  main_local := [4]
  main_next := [5]
  aux_local := []
  aux_next := []
  quotient_chunks := [[1], [2], [3], [4]]
  opening_proof := ()
  log_degree := 1

/-- The proof object `prove` produces on the concrete no-aux instance
(`pcsC`, `chC`, `airC`, `traceC`), written out. -/
def proofCexp : ProofModel FC CC Unit where
  main_commit := [⟨[1, 2], 1⟩]
  aux_commit := none
  quotient_commits :=
    [[⟨[6, 4], 1⟩], [⟨[10, 7], 1⟩], [⟨[11, 8], 1⟩], [⟨[14, 12], 1⟩]]
  main_local := [0]
  main_next := [3]
  aux_local := []
  aux_next := []
  quotient_chunks := [[6], [3], [7], [4]]
  opening_proof := ()
  log_degree := 1

/-- The event log of that concrete proving run. -/
def evsCexp : List (TEvent FC CC) :=
  [TEvent.observeCommit [⟨[1, 2], 1⟩], TEvent.observeVals [],
    TEvent.sampleEv, TEvent.observeCommit [⟨[6, 4], 1⟩],
    TEvent.observeCommit [⟨[10, 7], 1⟩], TEvent.observeCommit [⟨[11, 8], 1⟩],
    TEvent.observeCommit [⟨[14, 12], 1⟩], TEvent.sampleEv]

/-- The proof object `prove` produces on the concrete auxiliary instance
(`airAux1` over `traceC`), written out. -/
def proofAux1exp : ProofModel FC CC Unit where
  main_commit := [⟨[1, 2], 1⟩]
  aux_commit := some [⟨[2, 2], 1⟩]
  quotient_commits :=
    [[⟨[9, 13], 1⟩], [⟨[1, 7], 1⟩], [⟨[16, 5], 1⟩], [⟨[10, 14], 1⟩]]
  main_local := [8]
  main_next := [12]
  aux_local := [2]
  aux_next := [2]
  quotient_chunks := [[14], [13], [3], [2]]
  opening_proof := ()
  log_degree := 1

/-- The event log of that auxiliary proving run. -/
def evsAux1exp : List (TEvent FC CC) :=
  [TEvent.observeCommit [⟨[1, 2], 1⟩], TEvent.observeVals [],
    TEvent.sampleEv, TEvent.observeCommit [⟨[2, 2], 1⟩], TEvent.sampleEv,
    TEvent.observeCommit [⟨[9, 13], 1⟩], TEvent.observeCommit [⟨[1, 7], 1⟩],
    TEvent.observeCommit [⟨[16, 5], 1⟩],
    TEvent.observeCommit [⟨[10, 14], 1⟩], TEvent.sampleEv]

/-- The concrete proving run. -/
def proveResC := prove pcsC chC airC traceC []

/-- The concrete round trip: verify the honestly produced proof. -/
def verifyResC := proveResC.bind (fun pr => verify pcsC chC airC pr.1 [])

/-- Modelled from the spec: a row environment of an execution trace — the
two-row window at row `i` (cyclically) together with the boundary selector
bits, the setting in which the spec says the constraints of an honest trace
must vanish. -/
def rowEnv {F : Type} [CommRing F] (m aux : MatrixRM F) (i : Nat) : Env F :=
  let h := m.height
  ⟨(collectRow m i m.width).getD [], (collectRow m ((i + 1) % h) m.width).getD [],
    (collectRow aux i aux.width).getD [],
    (collectRow aux ((i + 1) % h) aux.width).getD [],
    (if i = 0 then 1 else 0), (if i + 1 = h then 1 else 0),
    (if i + 1 = h then 0 else 1)⟩

/-- Modelled from the spec: `main` (with auxiliary trace `aux`) honestly
satisfies the constraints of `air` when every asserted expression evaluates
to zero in every row window. -/
def satisfiesConstraints {F : Type} [CommRing F] [DecidableEq F]
    (air : AirModel F) (m aux : MatrixRM F) : Prop :=
  ∀ i ∈ List.range m.height,
    evalAll air.constraints (rowEnv m aux i) =
      some (air.constraints.map (fun _ => 0))

instance satisfiesConstraintsDec {F : Type} [CommRing F] [DecidableEq F]
    (air : AirModel F) (m aux : MatrixRM F) :
    Decidable (satisfiesConstraints air m aux) := by
  unfold satisfiesConstraints; infer_instance

/-- All trace-column indices read by an expression are within the given
main/aux local and next row lengths. -/
def exprVarsOk {F : Type} : AExpr F → Nat → Nat → Nat → Nat → Bool
  | .const _, _, _, _, _ => true
  | .mainLocal i, ml, _, _, _ => decide (i < ml)
  | .mainNext i, _, mn, _, _ => decide (i < mn)
  | .auxLocal i, _, _, al, _ => decide (i < al)
  | .auxNext i, _, _, _, an => decide (i < an)
  | .isFirstRow, _, _, _, _ => true
  | .isLastRow, _, _, _, _ => true
  | .isTransition, _, _, _, _ => true
  | .add a b, ml, mn, al, an =>
    exprVarsOk a ml mn al an && exprVarsOk b ml mn al an
  | .sub a b, ml, mn, al, an =>
    exprVarsOk a ml mn al an && exprVarsOk b ml mn al an
  | .mul a b, ml, mn, al, an =>
    exprVarsOk a ml mn al an && exprVarsOk b ml mn al an

/-- Numeric tag of a transcript event (0 = commitment observe, 1 = value
observe, 2 = sample), used to exhibit the interaction patterns. -/
def eventTag {F C : Type} : TEvent F C → Nat
  | .observeCommit _ => 0
  | .observeVals _ => 1
  | .sampleEv => 2

/-! ## Helper lemmas -/

/-- The prover folder completes whenever the alpha-power table covers the
remaining assertions from the current index. -/
theorem proverFolderGo_total {F : Type} [CommRing F] (aps : List F) :
    ∀ (cs : List F) (acc : F) (idx : Nat), idx + cs.length ≤ aps.length →
      ∃ r, proverFolderGo aps acc idx cs = some r := by
  intro cs
  induction cs with
  | nil => intro acc idx _; exact ⟨acc, rfl⟩
  | cons c rest ih =>
    intro acc idx h
    have hidx : idx < aps.length := by
      simp only [List.length_cons] at h; omega
    have ha : aps[idx]? = some aps[idx] := List.getElem?_eq_getElem hidx
    set a := aps[idx] with hadef
    have step : proverFolderGo aps acc idx (c :: rest) =
        proverFolderGo aps (acc + a * c) (idx + 1) rest := by
      simp [proverFolderGo, ha]
    rw [step]
    apply ih
    simp only [List.length_cons] at h; omega

/-- An expression whose indices are in bounds of the environment row lengths
evaluates without panicking. -/
theorem evalA_total {F : Type} [CommRing F] (env : Env F) :
    ∀ e : AExpr F,
      exprVarsOk e env.main_local.length env.main_next.length
        env.aux_local.length env.aux_next.length = true →
      ∃ v, evalA e env = some v := by
  intro e
  induction e with
  | const c => intro _; exact ⟨c, rfl⟩
  | mainLocal i =>
    intro h
    simp only [exprVarsOk, decide_eq_true_eq] at h
    exact ⟨env.main_local[i], by simp [evalA, List.getElem?_eq_getElem h]⟩
  | mainNext i =>
    intro h
    simp only [exprVarsOk, decide_eq_true_eq] at h
    exact ⟨env.main_next[i], by simp [evalA, List.getElem?_eq_getElem h]⟩
  | auxLocal i =>
    intro h
    simp only [exprVarsOk, decide_eq_true_eq] at h
    exact ⟨env.aux_local[i], by simp [evalA, List.getElem?_eq_getElem h]⟩
  | auxNext i =>
    intro h
    simp only [exprVarsOk, decide_eq_true_eq] at h
    exact ⟨env.aux_next[i], by simp [evalA, List.getElem?_eq_getElem h]⟩
  | isFirstRow => intro _; exact ⟨env.is_first_row, rfl⟩
  | isLastRow => intro _; exact ⟨env.is_last_row, rfl⟩
  | isTransition => intro _; exact ⟨env.is_transition, rfl⟩
  | add a b iha ihb =>
    intro h
    simp only [exprVarsOk, Bool.and_eq_true] at h
    obtain ⟨x, hx⟩ := iha h.1
    obtain ⟨y, hy⟩ := ihb h.2
    exact ⟨x + y, by simp [evalA, hx, hy]⟩
  | sub a b iha ihb =>
    intro h
    simp only [exprVarsOk, Bool.and_eq_true] at h
    obtain ⟨x, hx⟩ := iha h.1
    obtain ⟨y, hy⟩ := ihb h.2
    exact ⟨x - y, by simp [evalA, hx, hy]⟩
  | mul a b iha ihb =>
    intro h
    simp only [exprVarsOk, Bool.and_eq_true] at h
    obtain ⟨x, hx⟩ := iha h.1
    obtain ⟨y, hy⟩ := ihb h.2
    exact ⟨x * y, by simp [evalA, hx, hy]⟩

/-- A constraint list whose indices are all in bounds evaluates without
panicking. -/
theorem evalAll_total {F : Type} [CommRing F] (env : Env F) :
    ∀ cs : List (AExpr F),
      (∀ e ∈ cs, exprVarsOk e env.main_local.length env.main_next.length
        env.aux_local.length env.aux_next.length = true) →
      ∃ vs, evalAll cs env = some vs := by
  intro cs
  induction cs with
  | nil => intro _; exact ⟨[], rfl⟩
  | cons e rest ih =>
    intro h
    obtain ⟨v, hv⟩ := evalA_total env e (h e (by simp))
    obtain ⟨vs, hvs⟩ := ih (fun x hx => h x (by simp [hx]))
    exact ⟨v :: vs, by simp [evalAll, hv, hvs]⟩

/-- The quotient reconstruction loop completes when every chunk is a
non-empty value vector. -/
theorem reconstructQuotientGo_total {F : Type} [CommRing F] (n : F) :
    ∀ (chunks : List (List F)), (∀ c ∈ chunks, c ≠ []) →
      ∀ acc power, ∃ r, reconstructQuotientGo n acc power chunks = some r := by
  intro chunks
  induction chunks with
  | nil => intro _ acc power; exact ⟨acc, rfl⟩
  | cons c rest ih =>
    intro h acc power
    match c, h c (by simp) with
    | c0 :: _, _ =>
      obtain ⟨r, hr⟩ := ih (fun x hx => h x (by simp [hx]))
        (acc + c0 * power) (power * n)
      exact ⟨r, by simp [reconstructQuotientGo, hr]⟩

/-- Observing a commitment list appends exactly the corresponding
commitment-observe events, in order. -/
theorem obsCommitList_snd {F C St : Type} (ch : ChallengerModel F C St) :
    ∀ (cs : List C) (s : ChSt St F C),
      (obsCommitList ch s cs).2 = s.2 ++ cs.map TEvent.observeCommit := by
  intro cs
  induction cs with
  | nil => intro s; simp [obsCommitList]
  | cons c rest ih =>
    intro s
    rw [obsCommitList, ih]
    simp [obsCommit]

/-- Extraction via `chunkVals` preserves the round count. -/
theorem chunkVals_length {F : Type} :
    ∀ (l : List (List (List (List F)))) (cs : List (List F)),
      chunkVals l = some cs → cs.length = l.length := by
  intro l
  induction l with
  | nil => intro cs h; simp [chunkVals] at h; simp [← h]
  | cons vals rest ih =>
    intro cs h
    simp only [chunkVals] at h
    split at h
    · exact Option.noConfusion h
    split at h
    · rename_i c cs2 hc hcs2
      injection h with h2
      subst h2
      simp [ih cs2 hcs2]
    · exact Option.noConfusion h

/-- The number of extracted quotient chunks equals the number of rounds
past the main (and optional auxiliary) one. -/
theorem extractOpenings_chunks_len {F : Type} (b : Bool)
    (ov : List (List (List (List F))))
    (ex : List F × List F × List F × List F × List (List F))
    (hex : extractOpenings b ov = some ex) :
    ex.2.2.2.2.length = ov.length - (if b then 2 else 1) := by
  simp only [extractOpenings] at hex
  repeat' split at hex
  all_goals (try exact Option.noConfusion hex)
  · rename_i hcv
    cases hex
    have := chunkVals_length _ _ hcv
    simp_all [List.length_drop]
  · rename_i hcv
    cases hex
    have := chunkVals_length _ _ hcv
    simp_all [List.length_drop]

/-- Sampling `n` challenges appends exactly `n` sample events. -/
theorem sampleN_snd {F C St : Type} (ch : ChallengerModel F C St) :
    ∀ (n : Nat) (s : ChSt St F C),
      (sampleN ch s n).2.2 = s.2 ++ List.replicate n TEvent.sampleEv := by
  intro n
  induction n with
  | zero => intro s; simp [sampleN]
  | succ m ih =>
    intro s
    rw [sampleN]
    simp [ih, sampleE, List.replicate_succ]

/-- Completed quotient-and-open phases put the given auxiliary commitment
into the proof and begin the event log with the events accumulated so far
followed by the alpha sample. -/
theorem proveQuotientAndOpen_shape {F D C PD OP St : Type} [CommRing F]
    (pcs : PcsModel F D C PD OP St) (ch : ChallengerModel F C St)
    (air : AirModel F) (td : D) (height log_degree : Nat) (mc : C) (md : PD)
    (ac : Option C) (ad : Option PD) (pv : List F) (s : ChSt St F C)
    (proof : ProofModel F C OP) (evs : List (TEvent F C))
    (h : proveQuotientAndOpen pcs ch air td height log_degree mc md ac ad
      pv s = some (proof, evs)) :
    proof.aux_commit = ac ∧ proof.main_commit = mc ∧
      proof.log_degree = log_degree ∧
      ∃ post, evs = s.2 ++ [TEvent.sampleEv] ++ post := by
  simp only [proveQuotientAndOpen] at h
  split at h
  · exact Option.noConfusion h
  split at h
  · exact Option.noConfusion h
  split at h
  · exact Option.noConfusion h
  simp only [Option.some.injEq, Prod.mk.injEq] at h
  obtain ⟨hp, he⟩ := h
  subst hp
  refine ⟨rfl, rfl, rfl, ?_⟩
  subst he
  simp only [sampleE, obsCommitList_snd, List.append_assoc]
  exact ⟨_, rfl⟩

/-- The event log of a sample following a commitment-list observation
decomposes around the commitment observes. -/
theorem events_decomp {F C St : Type} (ch : ChallengerModel F C St)
    (s : ChSt St F C) (cs : List C) (tail : List (TEvent F C)) :
    (sampleE ch (obsCommitList ch s cs)).2.2 ++ tail =
      s.2 ++ cs.map TEvent.observeCommit ++ ([TEvent.sampleEv] ++ tail) := by
  simp [sampleE, obsCommitList_snd]

/-- Every completed run of the checked tail of `verify` ends in success or
`ConstraintVerificationFailed`; no other error constructor is reachable
there. -/
theorem verifyChecked_result {F D C PD OP St : Type} [CommRing F]
    [DecidableEq F] (pcs : PcsModel F D C PD OP St)
    (ch : ChallengerModel F C St) (air : AirModel F)
    (proof : ProofModel F C OP) (pv : List F)
    (r : Except VerificationError Unit) (evs : List (TEvent F C))
    (h : verifyChecked pcs ch air proof pv = some (r, evs)) :
    r = Except.ok () ∨
      r = Except.error VerificationError.ConstraintVerificationFailed := by
  simp only [verifyChecked] at h
  repeat' split at h
  all_goals simp_all

/-! ## The claims -/

/-- C1.  Completeness round trip.  The claim fails on the code: `traceC` is
an honestly generated height-2 main trace for the computation `airC` (it
satisfies every constraint, as the first conjunct states), the computation
declares no auxiliary trace, yet verifying the honestly produced proof
returns `ConstraintVerificationFailed` instead of success. -/
theorem claim_C1_roundtrip_fails :
    satisfiesConstraints airC traceC ⟨[], 0⟩ ∧
    traceC.width = airC.width ∧ traceC.height = 2 ∧
    verifyResC.map (fun pr => pr.1) =
      some (Except.error VerificationError.ConstraintVerificationFailed) :=
  ⟨by decide, by decide, by decide, by decide⟩

/-- C2.  Transcript agreement.  The claim fails on the code: in the concrete
round trip the prover interaction pattern is observe-commit, observe-values,
sample (alpha), four commit observes, sample (zeta), while the verifier
pattern is observe-commit, observe-values, four commit observes, sample
(zeta), sample (alpha) — the combining challenge is sampled at a different
transcript position on the two sides, so the event sequences differ. -/
theorem claim_C2_transcript_mismatch :
    proveResC.map (fun pr => pr.2.map eventTag) =
      some [0, 1, 2, 0, 0, 0, 0, 2] ∧
    verifyResC.map (fun pr => pr.2.map eventTag) =
      some [0, 1, 0, 0, 0, 0, 2, 2] ∧
    ([0, 1, 2, 0, 0, 0, 0, 2] : List Nat) ≠ [0, 1, 0, 0, 0, 0, 2, 2] ∧
    proveResC.map (fun pr => pr.2) ≠ verifyResC.map (fun pr => pr.2) :=
  ⟨by decide, by decide, by decide, by decide⟩

/-- C3.  Quotient reconstruction base.  The claim (base = zeta to the
per-chunk domain size) fails on the code, whose loop multiplies by the field
element equal to the trace height: with height 2, chunk size 2, zeta = 5 and
chunk values 1 and 1 the code reconstructs 1 + 1 * 2 = 3 while the claimed
combination gives 1 + 1 * 5 ^ 2 = 9. -/
theorem claim_C3_reconstruction_base :
    reconstructQuotient ((2 : Nat) : FC) [[1], [1]] = some 3 ∧
    reconstructQuotientSpec (5 : FC) 2 [[1], [1]] = some 9 ∧
    (3 : FC) ≠ 9 :=
  ⟨by decide, by decide, by decide⟩

/-- C4.  Combination-order mismatch, as the claim states it: there is a
non-palindromic constraint-value sequence and an alpha on which the prover
folder (reverse-indexed alpha-power table) and the verifier folder (forward
Horner) accumulate different values. -/
theorem claim_C4_combination_order :
    ∃ (cs : List (ZMod 101)) (alpha : ZMod 101),
      cs ≠ cs.reverse ∧
      proverFolderRun ((alphaPowersList alpha 100).reverse) cs ≠
        some (verifierFolderRun alpha cs) :=
  ⟨[0, 1], 2, by decide, by decide⟩

/-- C5.  Structural aux-presence check: `verify` returns `InvalidProof`
exactly when the presence of an auxiliary commitment disagrees with the
declared auxiliary width, and in that case it returns with an empty
transcript event log (no transcript interaction, hence no sampling and no
field arithmetic over transcript-derived values). -/
theorem claim_C5_structural_check {F D C PD OP St : Type} [CommRing F]
    [DecidableEq F] (pcs : PcsModel F D C PD OP St)
    (ch : ChallengerModel F C St) (air : AirModel F)
    (proof : ProofModel F C OP) (pv : List F) :
    (((air.auxWidth > 0 ∧ proof.aux_commit.isNone) ∨
        (air.auxWidth = 0 ∧ proof.aux_commit.isSome)) ↔
      ∃ s evs, verify pcs ch air proof pv =
        some (Except.error (VerificationError.InvalidProof s), evs)) ∧
    (∀ s evs, verify pcs ch air proof pv =
        some (Except.error (VerificationError.InvalidProof s), evs) →
      evs = []) := by
  constructor
  · constructor
    · intro hmm
      rcases hmm with h1 | h2
      · exact ⟨"AIR requires auxiliary trace but proof has none", [],
          by simp [verify, h1]⟩
      · have hnot1 : ¬ (air.auxWidth > 0 ∧ proof.aux_commit.isNone) := by
          intro hc
          omega
        exact ⟨"AIR has no auxiliary trace but proof includes one", [],
          by simp [verify, hnot1, h2]⟩
    · rintro ⟨s, evs, hv⟩
      by_cases h1 : air.auxWidth > 0 ∧ proof.aux_commit.isNone
      · exact Or.inl h1
      by_cases h2 : air.auxWidth = 0 ∧ proof.aux_commit.isSome
      · exact Or.inr h2
      exfalso
      rw [verify, if_neg h1, if_neg h2] at hv
      rcases verifyChecked_result pcs ch air proof pv _ _ hv with h | h <;>
        simp at h
  · intro s evs hv
    by_cases h1 : air.auxWidth > 0 ∧ proof.aux_commit.isNone
    · rw [verify, if_pos h1] at hv
      simp only [Option.some.injEq, Prod.mk.injEq] at hv
      exact hv.2.symm
    by_cases h2 : air.auxWidth = 0 ∧ proof.aux_commit.isSome
    · rw [verify, if_neg h1, if_pos h2] at hv
      simp only [Option.some.injEq, Prod.mk.injEq] at hv
      exact hv.2.symm
    exfalso
    rw [verify, if_neg h1, if_neg h2] at hv
    rcases verifyChecked_result pcs ch air proof pv _ _ hv with h | h <;>
      simp at h

/-- Witness for C5: a computation that declares an auxiliary trace paired
with a proof that has no auxiliary commitment is rejected as invalid with an
empty event log. -/
theorem claim_C5_witness :
    ∃ s evs, verify pcsC chC airAux1 proofTrivial [] =
      some (Except.error (VerificationError.InvalidProof s), evs) :=
  (claim_C5_structural_check pcsC chC airAux1 proofTrivial []).1.mp
    (Or.inl (by decide))

/-- C6.  Every proof produced by `prove` carries exactly `quotient_degree`
(= 4, under the fixed constraint degree 2) quotient-chunk commitments, they
are observed into the transcript contiguously and in order, and the proof
carries exactly `quotient_degree` opened quotient chunks, so the verifier
reconstruction — a fold over `proof.quotient_chunks` — uses exactly that
many terms.  The hypotheses are the commitment-scheme contracts: splitting
into `k` chunks yields `k` evaluation matrices and `k` sub-domains, and the
batch opening returns one entry per round. -/
theorem claim_C6_chunk_count {F D C PD OP St : Type} [CommRing F]
    (pcs : PcsModel F D C PD OP St) (ch : ChallengerModel F C St)
    (air : AirModel F) (mt : MatrixRM F) (pv : List F)
    (hse : ∀ d k m, (pcs.splitEvals d k m).length = k)
    (hsd : ∀ d k, (pcs.splitDomains d k).length = k)
    (hop : ∀ rounds st, ((pcs.openAll rounds st).1).length = rounds.length)
    (proof : ProofModel F C OP) (evs : List (TEvent F C))
    (h : prove pcs ch air mt pv = some (proof, evs)) :
    quotient_degree = 4 ∧
    proof.quotient_commits.length = quotient_degree ∧
    proof.quotient_chunks.length = quotient_degree ∧
    ∃ pre post,
      evs = pre ++ proof.quotient_commits.map TEvent.observeCommit ++ post := by
  simp only [prove] at h
  split at h
  · exact Option.noConfusion h
  split at h
  · exact Option.noConfusion h
  split at h
  · exact Option.noConfusion h
  rename_i log_degree hlog aux_commit aux_data s5 haux
  simp only [proveQuotientAndOpen] at h
  split at h
  · exact Option.noConfusion h
  split at h
  · exact Option.noConfusion h
  split at h
  · exact Option.noConfusion h
  rename_i quotient_values hq zeta_next hnext ex hex
  simp only [Option.some.injEq, Prod.mk.injEq] at h
  obtain ⟨hp, he⟩ := h
  subst hp
  refine ⟨rfl, ?_, ?_, ?_⟩
  · simp [List.length_map, List.length_zip, hse, hsd]
  · have hlen := extractOpenings_chunks_len _ _ _ hex
    cases aux_data with
    | none =>
      simp only [Option.isSome_none, Bool.false_eq_true, if_false] at hlen
      rw [hlen, hop]
      simp [List.length_map, List.length_zip, hse, hsd]
    | some ad =>
      simp only [Option.isSome_some, if_true] at hlen
      rw [hlen, hop]
      simp [List.length_map, List.length_zip, hse, hsd]
  · rw [← he]
    exact ⟨_, _, events_decomp ch _ _ _⟩

/-- C7.  The auxiliary phase of `prove`, under the commitment-scheme
contract that the stored evaluations of a committed batch are the committed
matrices themselves.  When `aux_width() = 0` the proof carries no auxiliary
commitment and the event log goes straight from the public-value observation
to the alpha sample.  When `aux_width() > 0`, the proof carries the
commitment to `build_aux_trace(main trace, sampled challenges)` — a pure
function of the two — the built trace has the declared width and the trace
height, and the events are: the challenge samples in order, the auxiliary
commitment observe, then the alpha sample.  Separately, if the built
auxiliary trace has wrong width or height, `prove` panics (`none`). -/
theorem claim_C7_aux_phase {F D C PD OP St : Type} [CommRing F]
    (pcs : PcsModel F D C PD OP St) (ch : ChallengerModel F C St)
    (air : AirModel F) (mt : MatrixRM F) (pv : List F)
    (hld : ∀ l, pcs.getLdes (pcs.commit l).2 = l.map (fun p => p.2)) :
    (∀ (proof : ProofModel F C OP) (evs : List (TEvent F C)),
      prove pcs ch air mt pv = some (proof, evs) →
      (air.auxWidth = 0 → proof.aux_commit = none ∧
        ∃ post, evs = (proveMainState pcs ch mt pv).2 ++
          [TEvent.sampleEv] ++ post) ∧
      (air.auxWidth > 0 →
        proof.aux_commit = some ((pcs.commit
          [(pcs.naturalDomainForDegree mt.height,
            proveAuxMatrix pcs ch air mt pv)]).1) ∧
        (proveAuxMatrix pcs ch air mt pv).width = air.auxWidth ∧
        (proveAuxMatrix pcs ch air mt pv).height = mt.height ∧
        ∃ post, evs = (proveMainState pcs ch mt pv).2 ++
          List.replicate air.numChallenges TEvent.sampleEv ++
          [TEvent.observeCommit ((pcs.commit
            [(pcs.naturalDomainForDegree mt.height,
              proveAuxMatrix pcs ch air mt pv)]).1)] ++
          [TEvent.sampleEv] ++ post)) ∧
    (air.auxWidth > 0 →
      ((proveAuxMatrix pcs ch air mt pv).width ≠ air.auxWidth ∨
        (proveAuxMatrix pcs ch air mt pv).height ≠ mt.height) →
      prove pcs ch air mt pv = none) := by
  constructor
  · intro proof evs h
    simp only [prove] at h
    split at h
    · exact Option.noConfusion h
    split at h
    · exact Option.noConfusion h
    split at h
    · exact Option.noConfusion h
    rename_i ac ad s5 haux
    obtain ⟨hac, -, -, post, hevs⟩ :=
      proveQuotientAndOpen_shape _ _ _ _ _ _ _ _ _ _ _ _ _ _ h
    simp only [proveAuxPhase] at haux
    split at haux
    · rename_i hpos
      rw [hld] at haux
      simp only [List.map_cons, List.map_nil, List.get?_cons_zero] at haux
      split at haux
      · exact Option.noConfusion haux
      split at haux
      · exact Option.noConfusion haux
      rename_i hwidth hheight
      simp only [Option.some.injEq, Prod.mk.injEq] at haux
      obtain ⟨hac2, -, hs5⟩ := haux
      constructor
      · intro h0
        exact absurd h0 (by omega)
      · intro _
        refine ⟨?_, ?_, ?_, post, ?_⟩
        · rw [hac, ← hac2]
          rfl
        · simpa [proveAuxMatrix, proveChallenges, proveMainState]
            using not_not.mp hwidth
        · simpa [proveAuxMatrix, proveChallenges, proveMainState]
            using not_not.mp hheight
        · rw [hevs, ← hs5]
          simp [obsCommit, sampleN_snd, proveMainState, proveAuxMatrix,
            proveChallenges]
    · rename_i hneg
      simp only [Option.some.injEq, Prod.mk.injEq] at haux
      obtain ⟨hac2, -, hs5⟩ := haux
      constructor
      · intro _
        refine ⟨by rw [hac, ← hac2], post, ?_⟩
        rw [hevs, ← hs5]
        rfl
      · intro hpos
        exact absurd hpos hneg
  · intro hpos hbad
    simp only [prove]
    split
    · rfl
    split
    · rfl
    have hnone : proveAuxPhase pcs ch air
        (pcs.naturalDomainForDegree mt.height) mt.height
        (pcs.commit [(pcs.naturalDomainForDegree mt.height, mt)]).2
        (obsSlice ch (obsCommit ch (ch.init, [])
          (pcs.commit [(pcs.naturalDomainForDegree mt.height, mt)]).1) pv) =
        none := by
      simp only [proveAuxPhase, if_pos hpos]
      rw [hld]
      simp only [List.map_cons, List.map_nil, List.get?_cons_zero]
      by_cases hw : (air.buildAuxTrace mt
          (sampleN ch (obsSlice ch (obsCommit ch (ch.init, [])
            (pcs.commit [(pcs.naturalDomainForDegree mt.height, mt)]).1) pv)
            air.numChallenges).1).width ≠ air.auxWidth
      · rw [if_pos hw]
      · rw [if_neg hw]
        rcases hbad with hb | hb
        · exact absurd hb hw
        · rw [if_pos (show (air.buildAuxTrace mt
              (sampleN ch (obsSlice ch (obsCommit ch (ch.init, [])
                (pcs.commit [(pcs.naturalDomainForDegree mt.height,
                  mt)]).1) pv) air.numChallenges).1).height ≠ mt.height
            from hb)]
    rw [hnone]

/-- Witness for C6 at the concrete no-aux instance. -/
theorem claim_C6_witness :
    quotient_degree = 4 ∧
    proofCexp.quotient_commits.length = quotient_degree ∧
    proofCexp.quotient_chunks.length = quotient_degree ∧
    ∃ pre post, evsCexp =
      pre ++ proofCexp.quotient_commits.map TEvent.observeCommit ++ post :=
  claim_C6_chunk_count pcsC chC airC traceC []
    (fun d k m => by simp [pcsC]) (fun d k => by simp [pcsC])
    (fun rounds st => by simp [pcsC]) proofCexp evsCexp (by decide)

/-- Witness for C7 at the concrete auxiliary instance: the produced proof
commits to the auxiliary trace built from the main trace and the sampled
challenges. -/
theorem claim_C7_witness :
    proofAux1exp.aux_commit = some ((pcsC.commit
      [(pcsC.naturalDomainForDegree traceC.height,
        proveAuxMatrix pcsC chC airAux1 traceC [])]).1) :=
  (((claim_C7_aux_phase pcsC chC airAux1 traceC []
      (fun l => rfl)).1 proofAux1exp evsAux1exp (by decide)).2
    (by decide)).1

/-- C8.  `verify` never returns `PcsVerificationFailed`, and its entire
result (accept or reject, and the transcript events) is unchanged when the
opening proof inside the proof object is replaced by anything else: the
decision never consults the commitment-scheme opening proof. -/
theorem claim_C8_no_pcs_verification {F D C PD OP St : Type} [CommRing F]
    [DecidableEq F] (pcs : PcsModel F D C PD OP St)
    (ch : ChallengerModel F C St) (air : AirModel F)
    (proof : ProofModel F C OP) (pv : List F) :
    (∀ r evs, verify pcs ch air proof pv = some (r, evs) →
      r ≠ Except.error VerificationError.PcsVerificationFailed) ∧
    (∀ op2 : OP,
      verify pcs ch air { proof with opening_proof := op2 } pv =
        verify pcs ch air proof pv) := by
  constructor
  · intro r evs hv
    by_cases h1 : air.auxWidth > 0 ∧ proof.aux_commit.isNone
    · rw [verify, if_pos h1] at hv
      simp only [Option.some.injEq, Prod.mk.injEq] at hv
      rw [← hv.1]
      simp
    by_cases h2 : air.auxWidth = 0 ∧ proof.aux_commit.isSome
    · rw [verify, if_neg h1, if_pos h2] at hv
      simp only [Option.some.injEq, Prod.mk.injEq] at hv
      rw [← hv.1]
      simp
    rw [verify, if_neg h1, if_neg h2] at hv
    rcases verifyChecked_result pcs ch air proof pv _ _ hv with h | h <;>
      simp [h]
  · intro op2
    rfl

/-- Witness for C8 at a concrete input: the result at the trivial proof is
the structural invalid-proof error, which in particular is not
`PcsVerificationFailed`. -/
theorem claim_C8_witness :
    (Except.error (VerificationError.InvalidProof
        ("AIR requires auxiliary trace but proof has none")) :
      Except VerificationError Unit) ≠
      Except.error VerificationError.PcsVerificationFailed :=
  (claim_C8_no_pcs_verification pcsC chC airAux1 proofTrivial []).1 _ []
    (by decide)

/-- C10.  The prover folder alpha-power table
(`alpha.powers().take(100)` reversed, `prover.rs` lines 262-264) has exactly
100 entries, and for every assertion-value sequence of length at most 100
every table index is in bounds: the folder completes without reaching the
out-of-bounds branch. -/
theorem claim_C10_alpha_table_bound {F : Type} [CommRing F] (alpha : F) :
    ((alphaPowersList alpha 100).reverse).length = 100 ∧
    ∀ cs : List F, cs.length ≤ 100 →
      ∃ r, proverFolderRun ((alphaPowersList alpha 100).reverse) cs = some r := by
  constructor
  · simp [alphaPowersList]
  · intro cs h
    apply proverFolderGo_total
    simpa [alphaPowersList] using h

/-- C9, counterexample.  A proof whose `main_local` opened-value vector is
shorter than the columns the computation reads makes `verify` panic (the
out-of-bounds indexing in `VerifierView::get_local`), modelled by the result
`none`: `verify` does not terminate with a returned result value. -/
theorem claim_C9_counterexample :
    verify pcsC chC airC { proofTrivial with main_local := [] } [] = none :=
  by decide

/-- A constraint list with in-bounds indices cannot make `evalAll` panic. -/
theorem evalAll_ne_none {F : Type} [CommRing F] (cs : List (AExpr F))
    (env : Env F) (heq : evalAll cs env = none)
    (h : ∀ e ∈ cs, exprVarsOk e env.main_local.length env.main_next.length
      env.aux_local.length env.aux_next.length = true) : False := by
  obtain ⟨vs, hvs⟩ := evalAll_total env cs h
  rw [hvs] at heq
  cases heq

/-- Non-empty chunks cannot make the quotient reconstruction panic. -/
theorem reconstruct_ne_none {F : Type} [CommRing F] (n : F)
    (chunks : List (List F)) (heq : reconstructQuotient n chunks = none)
    (h : ∀ c ∈ chunks, c ≠ []) : False := by
  obtain ⟨r, hr⟩ := reconstructQuotientGo_total n chunks h 0 1
  rw [reconstructQuotient] at heq
  rw [hr] at heq
  cases heq

/-- C9, amended.  For every proof whose opened-value vectors cover all the
columns the computation reads, whose quotient chunks are non-empty vectors,
and over a domain supporting `next_point`, `verify` terminates by returning
a result value (`Ok` or a `VerificationError`) — the panic is impossible. -/
theorem claim_C9_returns {F D C PD OP St : Type} [CommRing F]
    [DecidableEq F] (pcs : PcsModel F D C PD OP St)
    (ch : ChallengerModel F C St) (air : AirModel F)
    (proof : ProofModel F C OP) (pv : List F)
    (hnp : ∀ d x, pcs.nextPoint d x ≠ none)
    (hvars : ∀ e ∈ air.constraints,
      exprVarsOk e proof.main_local.length proof.main_next.length
        proof.aux_local.length proof.aux_next.length = true)
    (hchunks : ∀ c ∈ proof.quotient_chunks, c ≠ []) :
    ∃ r evs, verify pcs ch air proof pv = some (r, evs) := by
  have hne : verify pcs ch air proof pv ≠ none := by
    intro habs
    rw [verify] at habs
    split at habs
    · exact Option.noConfusion habs
    split at habs
    · exact Option.noConfusion habs
    simp only [verifyChecked] at habs
    repeat' split at habs
    all_goals first
      | exact Option.noConfusion habs
      | (rename_i heq; exact hnp _ _ heq)
      | (rename_i heq; exact evalAll_ne_none _ _ heq (by simpa using hvars))
      | (rename_i heq; exact reconstruct_ne_none _ _ heq hchunks)
  obtain ⟨p, hp⟩ := Option.ne_none_iff_exists'.mp hne
  exact ⟨p.1, p.2, hp⟩

/-- Witness for C9 at a concrete input: the trivial proof covers the single
column `airC` reads, so verification returns a value. -/
theorem claim_C9_witness :
    ∃ r evs, verify pcsC chC airC proofTrivial [] = some (r, evs) :=
  claim_C9_returns pcsC chC airC proofTrivial []
    (fun _ _ h => Option.noConfusion h) (by decide) (by decide)

/-- Witness for C10 at a concrete input. -/
theorem claim_C10_witness :
    ∃ r, proverFolderRun ((alphaPowersList (2 : FC) 100).reverse)
      [5, 6, 7] = some r :=
  (claim_C10_alpha_table_bound (2 : FC)).2 [5, 6, 7] (by decide)

end MTStark

